import Mathlib

/-!
Verification development for the tx2uml trace reconciliation pipeline.

The JavaScript/TypeScript sources are shallowly embedded:
JS strings are Lean `String` (or `List Char` where character-level
slicing matters), JS numbers and BigInt/BigNumber values are `Nat`,
optional / possibly-undefined fields are `Option`, thrown exceptions
are `Except` values, and object back-references are ids.
-/

/-- Model of the JavaScript `String.prototype.slice(start, end)` for
non-negative indices: both are clamped to the string length and an end
before the start yields the empty string. -/
def jsSlice (l : List Char) (s e : Nat) : List Char :=
  (l.take e).drop s

/-- Hexadecimal digit character for a value below 16 (lower case, as
produced by hex printing of byte strings). -/
def hexDigitChar (d : Nat) : Char :=
  if d < 10 then Char.ofNat (48 + d) else Char.ofNat (87 + d)

/-- Value of a hexadecimal digit character, upper or lower case;
`none` when the character is not a hexadecimal digit. -/
def hexDigitVal? (ch : Char) : Option Nat :=
  if 48 ≤ ch.toNat ∧ ch.toNat ≤ 57 then some (ch.toNat - 48)
  else if 97 ≤ ch.toNat ∧ ch.toNat ≤ 102 then some (ch.toNat - 87)
  else if 65 ≤ ch.toNat ∧ ch.toNat ≤ 70 then some (ch.toNat - 55)
  else none

/-- Test used to decide whether a character is a hexadecimal digit. -/
def isHexDigit (ch : Char) : Bool :=
  (hexDigitVal? ch).isSome

/-- Model of the JavaScript `parseInt(s, 16)` on the inputs reachable
here (slices of hexadecimal data): the longest prefix of hexadecimal
digits is converted; when there is no such digit the JS call returns
NaN, modelled as `none`. -/
def jsParseIntHex (l : List Char) : Option Nat :=
  match l.takeWhile isHexDigit with
  | [] => none
  | ds => some (ds.foldl (fun acc ch => acc * 16 + (hexDigitVal? ch).getD 0) 0)

/-- Big-endian hexadecimal rendering of a number into exactly `k`
digits (modulo 16 ^ k), used to build 32-byte ABI words. -/
def wordHex : Nat → Nat → List Char
  | 0, _ => []
  | k + 1, n => wordHex k (n / 16) ++ [hexDigitChar (n % 16)]

/-- Hexadecimal rendering of a byte list, two digits per byte. -/
def hexOfBytes : List Nat → List Char
  | [] => []
  | b :: bs => hexDigitChar (b / 16) :: hexDigitChar (b % 16) :: hexOfBytes bs

/-- Model of the byte-string parsing done by the ethers `arrayify` on
a hexadecimal payload: pairs of hexadecimal digits become bytes; an
odd-length or non-hexadecimal payload is rejected (the library
throws, modelled as `none`). -/
def hexPairsToBytes : List Char → Option (List Nat)
  | [] => some []
  | [_] => none
  | c1 :: c2 :: rest =>
    match hexDigitVal? c1, hexDigitVal? c2, hexPairsToBytes rest with
    | some d1, some d2, some bs => some ((d1 * 16 + d2) :: bs)
    | _, _, _ => none

/-- UTF-8 encoding of one Unicode code point (assumed to be a scalar
value below 0x110000). -/
def utf8EncodeChar (c : Nat) : List Nat :=
  if c < 0x80 then [c]
  else if c < 0x800 then [0xc0 + c / 64, 0x80 + c % 64]
  else if c < 0x10000 then [0xe0 + c / 4096, 0x80 + c / 64 % 64, 0x80 + c % 64]
  else [0xf0 + c / 262144, 0x80 + c / 4096 % 64, 0x80 + c / 64 % 64, 0x80 + c % 64]

/-- UTF-8 encoding of a sequence of code points. -/
def utf8Encode : List Nat → List Nat
  | [] => []
  | c :: rest => utf8EncodeChar c ++ utf8Encode rest

/-- Decoding of one UTF-8 sequence, modelling one step of the ethers
`toUtf8String` code-point extraction: given the first byte and the
remaining bytes, yields the code point and the rest, or `none` on a
malformed sequence (bad prefix, stray or missing continuation byte,
overlong encoding, UTF-16 surrogate, out-of-range value), on which
the library throws. -/
def decodeOne (b1 : Nat) (tail : List Nat) : Option (Nat × List Nat) :=
  if b1 < 0x80 then some (b1, tail)
  else if b1 < 0xc0 then none
  else if b1 < 0xe0 then
    match tail with
    | b2 :: tail2 =>
      if 0x80 ≤ b2 ∧ b2 < 0xc0 then
        if (b1 - 0xc0) * 64 + (b2 - 0x80) < 0x80 then none
        else some ((b1 - 0xc0) * 64 + (b2 - 0x80), tail2)
      else none
    | [] => none
  else if b1 < 0xf0 then
    match tail with
    | b2 :: b3 :: tail3 =>
      if (0x80 ≤ b2 ∧ b2 < 0xc0) ∧ (0x80 ≤ b3 ∧ b3 < 0xc0) then
        if (b1 - 0xe0) * 4096 + (b2 - 0x80) * 64 + (b3 - 0x80) < 0x800 then none
        else if 0xd800 ≤ (b1 - 0xe0) * 4096 + (b2 - 0x80) * 64 + (b3 - 0x80) ∧
            (b1 - 0xe0) * 4096 + (b2 - 0x80) * 64 + (b3 - 0x80) ≤ 0xdfff then none
        else some ((b1 - 0xe0) * 4096 + (b2 - 0x80) * 64 + (b3 - 0x80), tail3)
      else none
    | _ => none
  else if b1 < 0xf8 then
    match tail with
    | b2 :: b3 :: b4 :: tail4 =>
      if (0x80 ≤ b2 ∧ b2 < 0xc0) ∧ (0x80 ≤ b3 ∧ b3 < 0xc0) ∧
          (0x80 ≤ b4 ∧ b4 < 0xc0) then
        if (b1 - 0xf0) * 262144 + (b2 - 0x80) * 4096 + (b3 - 0x80) * 64 +
            (b4 - 0x80) < 0x10000 then none
        else if 0x10ffff < (b1 - 0xf0) * 262144 + (b2 - 0x80) * 4096 +
            (b3 - 0x80) * 64 + (b4 - 0x80) then none
        else some ((b1 - 0xf0) * 262144 + (b2 - 0x80) * 4096 + (b3 - 0x80) * 64 +
          (b4 - 0x80), tail4)
      else none
    | _ => none
  else none

/-- Strict UTF-8 decoding loop over a byte list, with explicit fuel
so that the recursion is structural; the fuel never runs out when it
starts at the length of the list, since every step consumes at least
one byte. -/
def utf8DecodeAux : Nat → List Nat → Option (List Nat)
  | _, [] => some []
  | 0, _ :: _ => none
  | fuel + 1, b1 :: tail =>
    match decodeOne b1 tail with
    | some (cp, rest) => (utf8DecodeAux fuel rest).map (fun cs => cp :: cs)
    | none => none

/-- Strict UTF-8 decoding into code points, modelling the ethers
`toUtf8String` code-point extraction: malformed input makes the
library throw, modelled as `none`. -/
def utf8Decode (bs : List Nat) : Option (List Nat) :=
  utf8DecodeAux bs.length bs

/-- Model of the ethers `toUtf8String` applied to a 0x-prefixed
hexadecimal payload: bytes are parsed from hexadecimal pairs and
strictly decoded as UTF-8; the resulting string is represented by its
list of code points. -/
def toUtf8String (hexChars : List Char) : Option (List Nat) :=
  match hexPairsToBytes hexChars with
  | none => none
  | some bytes => utf8Decode bytes

/-- Modelled from the spec: the message type enum of the transaction
module (not under src), listing exactly the types used by both
conversion paths. -/
inductive MessageType where
  | Value
  | Call
  | Create
  | Selfdestruct
  | DelegateCall
  | StaticCall
deriving DecidableEq, Repr

/-- Modelled from the spec: the transaction-hash format check of the
regEx module (not under src), a 32-byte hexadecimal string with a 0x
prefix. -/
def matchesTxHash (s : String) : Bool :=
  let l := s.toList
  l.length = 66 ∧ l.take 2 = ['0', 'x'] ∧ (l.drop 2).all isHexDigit

/-- Model of the JavaScript error values thrown by the clients:
TypeError, plain Error, and the verror wrapper that adds context
around a cause. -/
inductive JsError where
  | typeError (msg : String)
  | jsError (msg : String)
  | verror (cause : JsError) (msg : String)
deriving DecidableEq, Repr

namespace GethClient

/-- Call type tags of the Geth callTracer response, from the
CallResponse type of the GethClient module. -/
inductive CallType where
  | CALL
  | CALLCODE
  | CREATE
  | CREATE2
  | DELEGATECALL
  | SELFDESTRUCT
  | STATICCALL
deriving DecidableEq, Repr

/-- CallResponse of the GethClient module: one node of the Geth
debug_traceTransaction call tree.  All fields but the type are
optional in the source. -/
inductive CallResponse where
  | mk
    (type : CallType)
    («from» : Option String)
    («to» : Option String)
    (input : Option (List Char))
    (output : Option (List Char))
    (value : Option Nat)
    (gas : Option Nat)
    (gasUsed : Option Nat)
    (time : Option String)
    (error : Option String)
    (calls : Option (List CallResponse))

/-- Projection of the type field. -/
def CallResponse.type : CallResponse → CallType
  | .mk ty _ _ _ _ _ _ _ _ _ _ => ty

/-- Projection of the from field. -/
def CallResponse.from? : CallResponse → Option String
  | .mk _ f _ _ _ _ _ _ _ _ _ => f

/-- Projection of the to field. -/
def CallResponse.«to» : CallResponse → Option String
  | .mk _ _ t _ _ _ _ _ _ _ _ => t

/-- Projection of the input field. -/
def CallResponse.input : CallResponse → Option (List Char)
  | .mk _ _ _ inp _ _ _ _ _ _ _ => inp

/-- Projection of the output field. -/
def CallResponse.output : CallResponse → Option (List Char)
  | .mk _ _ _ _ out _ _ _ _ _ _ => out

/-- Projection of the value field. -/
def CallResponse.value : CallResponse → Option Nat
  | .mk _ _ _ _ _ v _ _ _ _ _ => v

/-- Projection of the gas field. -/
def CallResponse.gas : CallResponse → Option Nat
  | .mk _ _ _ _ _ _ g _ _ _ _ => g

/-- Projection of the gasUsed field. -/
def CallResponse.gasUsed : CallResponse → Option Nat
  | .mk _ _ _ _ _ _ _ gu _ _ _ => gu

/-- Projection of the error field. -/
def CallResponse.error : CallResponse → Option String
  | .mk _ _ _ _ _ _ _ _ _ err _ => err

/-- Projection of the calls field. -/
def CallResponse.calls : CallResponse → Option (List CallResponse)
  | .mk _ _ _ _ _ _ _ _ _ _ calls => calls

/-- Trace record of the transaction module, as constructed by the
object literal inside addTraces.  The source stores a parentTrace
object reference and a childTraces list; the back-reference is
modelled by the parent's id (ids are list positions), and the
child list, which no claim reads, is omitted.  The inputParams and
outputParams fields, initialised to empty lists for later external
ABI decoding, are also omitted. -/
structure Trace where
  id : Nat
  type : MessageType
  «from» : Option String
  delegatedFrom : Option String
  «to» : Option String
  value : Nat
  inputs : Option (List Char)
  funcSelector : Option (List Char)
  outputs : Option (List Char)
  gasLimit : Option Nat
  gasUsed : Option Nat
  parentId : Option Nat
  depth : Nat
  error : Option String
deriving DecidableEq, Repr

/-- Type conversion of the GethClient module, from callTracer call
type tags to the message type enum; unmatched tags fall through to
the Call default. -/
def convertType (trace : CallResponse) : MessageType :=
  let type := MessageType.Call
  if trace.type = CallType.DELEGATECALL then MessageType.DelegateCall
  else if trace.type = CallType.STATICCALL then MessageType.StaticCall
  else if trace.type = CallType.CREATE ∨ trace.type = CallType.CREATE2 then
    MessageType.Create
  else if trace.type = CallType.SELFDESTRUCT then MessageType.Selfdestruct
  else type

/-- Conversion of an optional numeric string to a big number: an
absent (falsy) value stays undefined, anything else is parsed.
BigNumber values are modelled as Nat, so the parse is the
identity. -/
def convertBigNumber (value : Option Nat) : Option Nat :=
  match value with
  | none => none
  | some v => some v

/-- Construction of the new Trace from the object literal inside
addTraces.  The value field reads in the source as: value when
present is converted with convertBigNumber (never undefined on a
present value), otherwise BigNumber.from(0). -/
def newTraceOf (callResponse : CallResponse) (id depth : Nat)
    (parentTrace : Option Trace) : Trace :=
  { id := id
    type := convertType callResponse
    «from» := callResponse.from?
    delegatedFrom :=
      match parentTrace with
      | some p =>
        if p.type = MessageType.DelegateCall then p.«to» else callResponse.from?
      | none => callResponse.from?
    «to» := callResponse.«to»
    value := (convertBigNumber callResponse.value).getD 0
    inputs := callResponse.input
    funcSelector :=
      match callResponse.input with
      | some inp => if 10 ≤ inp.length then some (inp.take 10) else none
      | none => none
    outputs := callResponse.output
    gasLimit := convertBigNumber callResponse.gas
    gasUsed := convertBigNumber callResponse.gasUsed
    parentId := parentTrace.map Trace.id
    depth := depth
    error := callResponse.error }

mutual

/-- Recursive flattener of the GethClient module: pushes the Trace of
the current call, then adds the traces of its child calls in order,
threading the id counter through the whole descent and returning the
next free id. -/
def addTraces (callResponse : CallResponse) (traces : List Trace)
    (id depth : Nat) (parentTrace : Option Trace) : List Trace × Nat :=
  match callResponse with
  | .mk ty f t inp out v g gu tm err calls =>
    let newTrace :=
      newTraceOf (.mk ty f t inp out v g gu tm err calls) id depth parentTrace
    let traces1 := traces ++ [newTrace]
    match calls with
    | some cs => addTracesChildren cs traces1 (id + 1) (depth + 1) (some newTrace)
    | none => (traces1, id + 1)

/-- Left-to-right recursion over the child calls (the forEach loop of
addTraces), threading the trace list and the id counter. -/
def addTracesChildren (cs : List CallResponse) (traces : List Trace)
    (id depth : Nat) (parentTrace : Option Trace) : List Trace × Nat :=
  match cs with
  | [] => (traces, id)
  | child :: rest =>
    let r := addTraces child traces id depth parentTrace
    addTracesChildren rest r.1 r.2 depth parentTrace

end

/-- Whole-tree flattening as performed by getTransactionTrace: the
recursion starts with an empty trace list, id 0, depth 0 and no
parent. -/
def flattenTree (root : CallResponse) : List Trace :=
  (addTraces root [] 0 0 none).1

mutual

/-- Pre-order listing of the nodes of a call tree: the node itself
followed by the pre-order listings of its children. -/
def preorder (c : CallResponse) : List CallResponse :=
  match c with
  | .mk ty f t inp out v g gu tm err calls =>
    CallResponse.mk ty f t inp out v g gu tm err calls ::
      (match calls with
       | some cs => preorderChildren cs
       | none => [])

/-- Pre-order listing of a forest of call trees. -/
def preorderChildren (cs : List CallResponse) : List CallResponse :=
  match cs with
  | [] => []
  | c :: rest => preorder c ++ preorderChildren rest

end

end GethClient

namespace GethClient

/-- Mutual induction principle for call trees and forests, built from
the generated recursor. -/
theorem callResponse_ind (P : CallResponse → Prop) (Q : List CallResponse → Prop)
    (hmk : ∀ ty f t inp out v g gu tm err calls,
      (∀ cs, calls = some cs → Q cs) →
      P (CallResponse.mk ty f t inp out v g gu tm err calls))
    (hnil : Q []) (hcons : ∀ c cs, P c → Q cs → Q (c :: cs)) :
    ∀ c, P c :=
  fun c =>
    @CallResponse.rec P (fun o => ∀ cs, o = some cs → Q cs) Q
      (fun ty f t inp out v g gu tm err calls ih =>
        hmk ty f t inp out v g gu tm err calls ih)
      (fun _ h => Option.noConfusion h)
      (fun _ ih _ h => by cases Option.some.inj h; exact ih)
      hnil
      (fun head tail ph qt => hcons head tail ph qt)
      c

/-- Forest version of the mutual induction principle. -/
theorem callList_ind (P : CallResponse → Prop) (Q : List CallResponse → Prop)
    (hmk : ∀ ty f t inp out v g gu tm err calls,
      (∀ cs, calls = some cs → Q cs) →
      P (CallResponse.mk ty f t inp out v g gu tm err calls))
    (hnil : Q []) (hcons : ∀ c cs, P c → Q cs → Q (c :: cs)) :
    ∀ cs, Q cs := by
  intro cs
  induction cs with
  | nil => exact hnil
  | cons head tail ih =>
    exact hcons head tail (callResponse_ind P Q hmk hnil hcons head) ih

/-- Returned id counter: visiting a subtree advances the shared id
counter by exactly the node count of that subtree, for the forest
recursion. -/
theorem addTracesChildren_snd :
    ∀ cs ts id d p, (addTracesChildren cs ts id d p).2
      = id + (preorderChildren cs).length := by
  have main := callList_ind
    (fun c => ∀ ts id d p,
      (addTraces c ts id d p).2 = id + (preorder c).length)
    (fun cs => ∀ ts id d p,
      (addTracesChildren cs ts id d p).2 = id + (preorderChildren cs).length)
    (by
      intro ty f t inp out v g gu tm err calls ih ts id d p
      cases calls with
      | none => simp [addTraces, preorder]
      | some cs =>
        simp only [addTraces, preorder, ih cs rfl]
        simp [List.length_cons]
        omega)
    (by intro ts id d p; simp [addTracesChildren, preorderChildren])
    (by
      intro c cs hc hcs ts id d p
      simp only [addTracesChildren, hcs, hc, preorderChildren]
      simp
      omega)
  exact main

/-- Returned id counter: visiting a subtree advances the shared id
counter by exactly the node count of that subtree. -/
theorem addTraces_snd :
    ∀ c ts id d p, (addTraces c ts id d p).2 = id + (preorder c).length := by
  intro c ts id d p
  cases c with
  | mk ty f t inp out v g gu tm err calls =>
    cases calls with
    | none => simp [addTraces, preorder]
    | some cs =>
      simp only [addTraces, preorder, addTracesChildren_snd]
      simp
      omega

/-- Trace-list accumulation is append-only: running the forest
recursion on any accumulator appends exactly the traces produced from
the empty accumulator. -/
theorem addTracesChildren_append :
    ∀ cs ts id d p, (addTracesChildren cs ts id d p).1
      = ts ++ (addTracesChildren cs [] id d p).1 := by
  have main := callList_ind
    (fun c => ∀ ts id d p,
      (addTraces c ts id d p).1 = ts ++ (addTraces c [] id d p).1)
    (fun cs => ∀ ts id d p,
      (addTracesChildren cs ts id d p).1
        = ts ++ (addTracesChildren cs [] id d p).1)
    (by
      intro ty f t inp out v g gu tm err calls ih ts id d p
      cases calls with
      | none => simp [addTraces]
      | some cs =>
        simp only [addTraces]
        rw [ih cs rfl
          (ts ++ [newTraceOf (CallResponse.mk ty f t inp out v g gu tm err
            (some cs)) id d p])]
        rw [ih cs rfl
          ([] ++ [newTraceOf (CallResponse.mk ty f t inp out v g gu tm err
            (some cs)) id d p])]
        simp)
    (by intro ts id d p; simp [addTracesChildren])
    (by
      intro c cs hc hcs ts id d p
      simp only [addTracesChildren]
      rw [hc ts id d p, addTraces_snd c ts id d p, addTraces_snd c [] id d p]
      rw [hcs (ts ++ (addTraces c [] id d p).1) (id + (preorder c).length) d p]
      rw [hcs ((addTraces c [] id d p).1) (id + (preorder c).length) d p]
      simp)
  exact main

/-- Trace-list accumulation is append-only for a single subtree. -/
theorem addTraces_append :
    ∀ c ts id d p, (addTraces c ts id d p).1
      = ts ++ (addTraces c [] id d p).1 := by
  intro c ts id d p
  cases c with
  | mk ty f t inp out v g gu tm err calls =>
    cases calls with
    | none => simp [addTraces]
    | some cs =>
      simp only [addTraces]
      rw [addTracesChildren_append cs
        (ts ++ [newTraceOf (CallResponse.mk ty f t inp out v g gu tm err
          (some cs)) id d p])]
      rw [addTracesChildren_append cs
        ([] ++ [newTraceOf (CallResponse.mk ty f t inp out v g gu tm err
          (some cs)) id d p])]
      simp

@[simp] theorem newTraceOf_id (c : CallResponse) (id d : Nat) (p : Option Trace) :
    (newTraceOf c id d p).id = id := rfl

@[simp] theorem newTraceOf_type (c : CallResponse) (id d : Nat) (p : Option Trace) :
    (newTraceOf c id d p).type = convertType c := rfl

@[simp] theorem newTraceOf_from (c : CallResponse) (id d : Nat) (p : Option Trace) :
    (newTraceOf c id d p).«from» = c.from? := rfl

@[simp] theorem newTraceOf_to (c : CallResponse) (id d : Nat) (p : Option Trace) :
    (newTraceOf c id d p).«to» = c.«to» := rfl

@[simp] theorem newTraceOf_inputs (c : CallResponse) (id d : Nat) (p : Option Trace) :
    (newTraceOf c id d p).inputs = c.input := rfl

@[simp] theorem newTraceOf_outputs (c : CallResponse) (id d : Nat) (p : Option Trace) :
    (newTraceOf c id d p).outputs = c.output := rfl

@[simp] theorem newTraceOf_error (c : CallResponse) (id d : Nat) (p : Option Trace) :
    (newTraceOf c id d p).error = c.error := rfl

@[simp] theorem newTraceOf_depth (c : CallResponse) (id d : Nat) (p : Option Trace) :
    (newTraceOf c id d p).depth = d := rfl

@[simp] theorem newTraceOf_value (c : CallResponse) (id d : Nat) (p : Option Trace) :
    (newTraceOf c id d p).value = (convertBigNumber c.value).getD 0 := rfl

@[simp] theorem newTraceOf_gasLimit (c : CallResponse) (id d : Nat) (p : Option Trace) :
    (newTraceOf c id d p).gasLimit = convertBigNumber c.gas := rfl

@[simp] theorem newTraceOf_gasUsed (c : CallResponse) (id d : Nat) (p : Option Trace) :
    (newTraceOf c id d p).gasUsed = convertBigNumber c.gasUsed := rfl

@[simp] theorem newTraceOf_parentId (c : CallResponse) (id d : Nat) (p : Option Trace) :
    (newTraceOf c id d p).parentId = p.map Trace.id := rfl

/-- Assigned ids of a flattened forest: starting the counter at id,
the emitted traces carry exactly the ids id, id+1, ... in order. -/
theorem addTracesChildren_map_id :
    ∀ cs id d p, ((addTracesChildren cs [] id d p).1).map Trace.id
      = List.range' id (preorderChildren cs).length := by
  have main := callList_ind
    (fun c => ∀ id d p, ((addTraces c [] id d p).1).map Trace.id
      = List.range' id (preorder c).length)
    (fun cs => ∀ id d p, ((addTracesChildren cs [] id d p).1).map Trace.id
      = List.range' id (preorderChildren cs).length)
    (by
      intro ty f t inp out v g gu tm err calls ih id d p
      cases calls with
      | none => simp [addTraces, preorder]
      | some cs =>
        have hl : (preorder (CallResponse.mk ty f t inp out v g gu tm err
            (some cs))).length = (preorderChildren cs).length + 1 := by
          simp [preorder, Nat.add_comm]
        rw [hl]
        simp only [addTraces]
        rw [addTracesChildren_append cs
          ([] ++ [newTraceOf (CallResponse.mk ty f t inp out v g gu tm err
            (some cs)) id d p])]
        rw [List.range'_succ]
        simp [ih cs rfl]
    )
    (by intro id d p; simp [addTracesChildren, preorderChildren])
    (by
      intro c cs hc hcs id d p
      have hl : (preorderChildren (c :: cs)).length
          = (preorder c).length + (preorderChildren cs).length := by
        simp [preorderChildren]
      rw [hl]
      simp only [addTracesChildren]
      rw [addTraces_snd c [] id d p]
      rw [addTracesChildren_append cs ((addTraces c [] id d p).1)
        (id + (preorder c).length) d p]
      rw [List.map_append, hc id d p, hcs (id + (preorder c).length) d p]
      rw [List.range'_append_1]
      rw [Nat.add_comm (preorderChildren cs).length (preorder c).length]
    )
  exact main

/-- Assigned ids of a flattened subtree. -/
theorem addTraces_map_id :
    ∀ c id d p, ((addTraces c [] id d p).1).map Trace.id
      = List.range' id (preorder c).length := by
  intro c id d p
  cases c with
  | mk ty f t inp out v g gu tm err calls =>
    cases calls with
    | none => simp [addTraces, preorder]
    | some cs =>
      have hl : (preorder (CallResponse.mk ty f t inp out v g gu tm err
          (some cs))).length = (preorderChildren cs).length + 1 := by
        simp [preorder, Nat.add_comm]
      rw [hl]
      simp only [addTraces]
      rw [addTracesChildren_append cs
        ([] ++ [newTraceOf (CallResponse.mk ty f t inp out v g gu tm err
          (some cs)) id d p])]
      rw [List.range'_succ]
      simp [addTracesChildren_map_id cs]

/-- Node count of a flattened subtree: one trace per tree node, on
top of whatever accumulator was passed in. -/
theorem addTraces_length :
    ∀ c ts id d p, (addTraces c ts id d p).1.length
      = ts.length + (preorder c).length := by
  intro c ts id d p
  rw [addTraces_append]
  have h := congrArg List.length (addTraces_map_id c id d p)
  simp only [List.length_map, List.length_range'] at h
  simp [h]

/-- View of the per-node fields of a Trace that are copied verbatim
from the corresponding CallResponse node. -/
def nodeView (tr : Trace) :
    Option String × Option String × Option (List Char) × Option String :=
  (tr.«from», tr.«to», tr.inputs, tr.error)

/-- Corresponding view of a CallResponse node. -/
def nodeProj (c : CallResponse) :
    Option String × Option String × Option (List Char) × Option String :=
  (c.from?, c.«to», c.input, c.error)

/-- Emitted traces of a forest correspond positionally to the
pre-order listing of its nodes. -/
theorem addTracesChildren_map_node :
    ∀ cs id d p, ((addTracesChildren cs [] id d p).1).map nodeView
      = (preorderChildren cs).map nodeProj := by
  have main := callList_ind
    (fun c => ∀ id d p, ((addTraces c [] id d p).1).map nodeView
      = (preorder c).map nodeProj)
    (fun cs => ∀ id d p, ((addTracesChildren cs [] id d p).1).map nodeView
      = (preorderChildren cs).map nodeProj)
    (by
      intro ty f t inp out v g gu tm err calls ih id d p
      cases calls with
      | none =>
        simp [addTraces, preorder, nodeView, nodeProj, CallResponse.from?,
          CallResponse.«to», CallResponse.input, CallResponse.error]
      | some cs =>
        simp only [addTraces, preorder]
        rw [addTracesChildren_append cs
          ([] ++ [newTraceOf (CallResponse.mk ty f t inp out v g gu tm err
            (some cs)) id d p])]
        simp [ih cs rfl, nodeView, nodeProj, CallResponse.from?,
          CallResponse.«to», CallResponse.input, CallResponse.error]
    )
    (by intro id d p; simp [addTracesChildren, preorderChildren])
    (by
      intro c cs hc hcs id d p
      simp only [addTracesChildren, preorderChildren]
      rw [addTraces_snd c [] id d p]
      rw [addTracesChildren_append cs ((addTraces c [] id d p).1)
        (id + (preorder c).length) d p]
      rw [List.map_append, List.map_append, hc id d p,
        hcs (id + (preorder c).length) d p]
    )
  exact main

/-- Emitted traces of a subtree correspond positionally to the
pre-order listing of its nodes. -/
theorem addTraces_map_node :
    ∀ c id d p, ((addTraces c [] id d p).1).map nodeView
      = (preorder c).map nodeProj := by
  intro c id d p
  cases c with
  | mk ty f t inp out v g gu tm err calls =>
    cases calls with
    | none =>
      simp [addTraces, preorder, nodeView, nodeProj, CallResponse.from?,
        CallResponse.«to», CallResponse.input, CallResponse.error]
    | some cs =>
      simp only [addTraces, preorder]
      rw [addTracesChildren_append cs
        ([] ++ [newTraceOf (CallResponse.mk ty f t inp out v g gu tm err
          (some cs)) id d p])]
      simp [addTracesChildren_map_node cs, nodeView, nodeProj,
        CallResponse.from?, CallResponse.«to», CallResponse.input,
        CallResponse.error]

@[simp] theorem newTraceOf_delegatedFrom_none (c : CallResponse) (id d : Nat) :
    (newTraceOf c id d none).delegatedFrom = c.from? := rfl

@[simp] theorem newTraceOf_delegatedFrom_some (c : CallResponse) (id d : Nat)
    (q : Trace) : (newTraceOf c id d (some q)).delegatedFrom
      = (if q.type = MessageType.DelegateCall then q.«to» else c.from?) := rfl

/-- Delegation attribution invariant of a trace list: a trace with no
parent has delegatedFrom equal to its own from; a trace whose parent
is a delegatecall has delegatedFrom equal to that parent's to, and
otherwise its own from. -/
def delegationOk (l : List Trace) : Prop :=
  ∀ tr ∈ l,
    (tr.parentId = none → tr.delegatedFrom = tr.«from») ∧
    (∀ pid, tr.parentId = some pid → ∃ pt, l[pid]? = some pt ∧
      tr.delegatedFrom
        = (if pt.type = MessageType.DelegateCall then pt.«to» else tr.«from»))

/-- Bound of a successful lookup. -/
theorem lt_of_getElem?_some {l : List Trace} {i : Nat} {x : Trace}
    (h : l[i]? = some x) : i < l.length := by
  by_contra hge
  push_neg at hge
  rw [List.getElem?_eq_none hge] at h
  exact Option.noConfusion h

/-- Pushing a freshly built trace at the end of a list preserves the
delegation invariant, provided the parent snapshot really sits at its
id in the list. -/
theorem delegationOk_push (c : CallResponse) (ts : List Trace) (d : Nat)
    (p : Option Trace) (hts : delegationOk ts)
    (hp : ∀ q, p = some q → ts[q.id]? = some q) :
    delegationOk (ts ++ [newTraceOf c ts.length d p]) := by
  intro tr htr
  rcases List.mem_append.mp htr with hmem | hmem
  · have h := hts tr hmem
    refine ⟨h.1, ?_⟩
    intro pid hpid
    obtain ⟨pt, hl, he⟩ := h.2 pid hpid
    have hlt : pid < ts.length := lt_of_getElem?_some hl
    exact ⟨pt, by rw [List.getElem?_append_left hlt]; exact hl, he⟩
  · have htr' : tr = newTraceOf c ts.length d p := by simpa using hmem
    subst htr'
    constructor
    · intro hnone
      cases p with
      | none => simp
      | some q => simp at hnone
    · intro pid hpid
      cases p with
      | none => simp at hpid
      | some q =>
        have hq : pid = q.id := by
          have : Option.map Trace.id (some q) = some pid := hpid
          simpa using this.symm
        subst hq
        have hqlook := hp q rfl
        have hlt : q.id < ts.length := lt_of_getElem?_some hqlook
        refine ⟨q, ?_, ?_⟩
        · rw [List.getElem?_append_left hlt]; exact hqlook
        · simp

/-- The forest recursion preserves the delegation invariant whenever
the id counter equals the accumulator length and the parent snapshot,
when present, sits at its id in the accumulator. -/
theorem addTracesChildren_delegationOk :
    ∀ cs ts id d p, id = ts.length → delegationOk ts →
      (∀ q, p = some q → ts[q.id]? = some q) →
      delegationOk ((addTracesChildren cs ts id d p).1) := by
  have main := callList_ind
    (fun c => ∀ ts id d p, id = ts.length → delegationOk ts →
      (∀ q, p = some q → ts[q.id]? = some q) →
      delegationOk ((addTraces c ts id d p).1))
    (fun cs => ∀ ts id d p, id = ts.length → delegationOk ts →
      (∀ q, p = some q → ts[q.id]? = some q) →
      delegationOk ((addTracesChildren cs ts id d p).1))
    (by
      intro ty f t inp out v g gu tm err calls ih ts id d p hid hts hp
      subst hid
      cases calls with
      | none =>
        simp only [addTraces]
        exact delegationOk_push _ ts d p hts hp
      | some cs =>
        simp only [addTraces]
        apply ih cs rfl
        · simp
        · exact delegationOk_push _ ts d p hts hp
        · intro q hq
          cases Option.some.inj hq
          simp only [newTraceOf_id]
          exact List.getElem?_concat_length ts _
    )
    (by intro ts id d p hid hts hp; simpa [addTracesChildren] using hts)
    (by
      intro c cs hc hcs ts id d p hid hts hp
      simp only [addTracesChildren]
      apply hcs
      · rw [addTraces_snd c ts id d p, addTraces_length c ts id d p, hid]
      · exact hc ts id d p hid hts hp
      · intro q hq
        have hold := hp q hq
        have hlt : q.id < ts.length := lt_of_getElem?_some hold
        rw [addTraces_append c ts id d p]
        rw [List.getElem?_append_left hlt]
        exact hold
    )
  exact main

/-- The subtree recursion preserves the delegation invariant. -/
theorem addTraces_delegationOk :
    ∀ c ts id d p, id = ts.length → delegationOk ts →
      (∀ q, p = some q → ts[q.id]? = some q) →
      delegationOk ((addTraces c ts id d p).1) := by
  intro c ts id d p hid hts hp
  subst hid
  cases c with
  | mk ty f t inp out v g gu tm err calls =>
    cases calls with
    | none =>
      simp only [addTraces]
      exact delegationOk_push _ ts d p hts hp
    | some cs =>
      simp only [addTraces]
      apply addTracesChildren_delegationOk cs
      · simp
      · exact delegationOk_push _ ts d p hts hp
      · intro q hq
        cases Option.some.inj hq
        simp only [newTraceOf_id]
        exact List.getElem?_concat_length ts _

end GethClient

/-- TypeError thrown by the transaction-hash format validation, shared
by all entry points. -/
def txHashTypeError (txHash : String) : JsError :=
  .typeError ("Transaction hash " ++ txHash ++
    " must be 32 bytes in hexadecimal format with a 0x prefix")

namespace GethClient

/-- Shapes the debug_traceTransaction JSON-RPC response can take, as
distinguished by getTransactionTrace: an error message, a result
without a from field but with structLogs, no usable result at all, or
a proper callTracer call tree. -/
inductive GethTraceResponse where
  | errorMessage (msg : String)
  | structLogs
  | noUsableResult
  | result (root : CallResponse)

/-- Entry point getTransactionTrace of the GethClient module: the
transaction hash is validated before the RPC interaction (the
response being a parameter of the model); a good response is
flattened with addTraces from id 0 and depth 0; everything thrown
inside the try block is wrapped with context. -/
def getTransactionTrace (txHash : String) (response : GethTraceResponse) :
    Except JsError (List Trace) :=
  if ¬ matchesTxHash txHash then .error (txHashTypeError txHash)
  else
    match response with
    | .errorMessage m =>
      .error (.verror (.jsError m) ("Failed to get transaction trace for tx hash " ++ txHash))
    | .structLogs =>
      .error (.verror (.jsError "Have you set the --nodeType option correctly? It looks like a debug_traceTransaction was run against a node that does not support tracing in their debugging API.")
        ("Failed to get transaction trace for tx hash " ++ txHash))
    | .noUsableResult =>
      .error (.verror (.jsError "no transaction trace messages in response")
        ("Failed to get transaction trace for tx hash " ++ txHash))
    | .result root => .ok ((addTraces root [] 0 0 none).1)

/-- Decoder parseReasonCode of the GethClient module: reads the
revert-reason length from the 64 hexadecimal characters after the
8-character selector and the 64-character offset word, slices that
many bytes worth of hexadecimal characters from the next word
boundary, and converts them from hexadecimal to a UTF-8 string.  When
the length slice holds no digit the JS parseInt yields NaN, and the
data slice end NaN coerces to 0 in the subsequent slice. -/
def parseReasonCode (messageData : List Char) : Option (List Nat) :=
  let strLen := jsParseIntHex (jsSlice messageData (8 + 64) (8 + 128))
  let reasonCodeHex :=
    match strLen with
    | some n => jsSlice messageData (8 + 128) (8 + 128 + n * 2)
    | none => jsSlice messageData (8 + 128) 0
  toUtf8String reasonCodeHex

end GethClient

namespace AlethioClient

/-- Type conversion of the AlethioClient module, from indexer message
type tags to the message type enum; unmatched tags keep the Call
default. -/
def convertType (msgType : String) : MessageType :=
  let type := MessageType.Call
  if msgType = "ValueContractMsg" ∨ msgType = "ValueTx" then
    MessageType.Value
  else if msgType = "CreateContractMsg" ∨ msgType = "CreateTx" then
    MessageType.Value
  else if msgType = "SelfdestructContractMsg" ∨ msgType = "SelfdestructTx" then
    MessageType.Selfdestruct
  else type

/-- Attribute and relationship fields of one contractMessages record
of the Alethio response, with numeric strings already read as
numbers (the BigInt parse is not modelled). -/
structure ContractMessageRecord where
  cmsgIndex : Nat
  msgType : String
  fromId : String
  toId : String
  value : Nat
  msgPayload : String
  msgGasUsed : Nat
  msgGasLimit : Nat
  msgCallDepth : Nat
  msgError : Bool
  msgErrorString : Option String
deriving DecidableEq, Repr

/-- Message records built by the AlethioClient module. -/
structure Message where
  id : Nat
  type : MessageType
  «from» : String
  «to» : String
  value : Nat
  payload : String
  gasUsed : Nat
  gasLimit : Nat
  callDepth : Nat
  status : Bool
  error : Option String
deriving DecidableEq, Repr

/-- Conversion of one record, as pushed by the loops of
getContractMessages and getContractMessagesRecursive. -/
def convertMessage (r : ContractMessageRecord) : Message :=
  { id := r.cmsgIndex
    type := convertType r.msgType
    «from» := r.fromId
    «to» := r.toId
    value := r.value
    payload := r.msgPayload
    gasUsed := r.msgGasUsed
    gasLimit := r.msgGasLimit
    callDepth := r.msgCallDepth
    status := !r.msgError
    error := r.msgErrorString }

/-- One page of the paginated contractMessages endpoint: the records,
the hasNext flag of the page metadata, and the optional continuation
link of the links object. -/
structure Page where
  records : List ContractMessageRecord
  hasNext : Bool
  nextLink : Option String
deriving DecidableEq, Repr

/-- Model of the JavaScript String.prototype.split on a one-character
separator: the pieces between separator occurrences, in order, always
at least one piece. -/
def splitOnChar (sep : Char) : List Char → List (List Char)
  | [] => [[]]
  | c :: rest =>
    let r := splitOnChar sep rest
    if c = sep then [] :: r
    else
      match r with
      | h :: t => (c :: h) :: t
      | [] => [[c]]

/-- Cursor extraction: links.next.split with the separator = and pop
of the last piece.  When the link is absent the property access
throws a TypeError. -/
def extractNextCursor (p : Page) : Except JsError String :=
  match p.nextLink with
  | none => .error (.typeError "Cannot read properties of undefined")
  | some link => .ok (String.mk ((splitOnChar '=' link.toList).getLastD []))

/-- Defensive final sort by contract message id ascending, modelling
the stable JavaScript array sort with the numeric comparator. -/
def sortById (msgs : List Message) : List Message :=
  msgs.mergeSort (fun a b => a.id ≤ b.id)

/-- Context message wrapped around errors of the contract-messages
fetch. -/
def contractMessagesFailMsg (txHash : String) : String :=
  "Failed to get contract messages for transaction hash " ++ txHash ++
    " from Alethio"

/-- Recursive cursor-follow of the AlethioClient module.  The hash
and cursor validations happen before the try block, so those
TypeErrors leave the function unwrapped; everything thrown inside the
try block, including errors of the nested recursive call, is wrapped
with context.  The fetched pages are a parameter of the model,
consumed in cursor order. -/
def getContractMessagesRecursive (txHash : String) (cursor : String)
    (messages : List Message) (pages : List Page) :
    Except JsError (List Message) :=
  if ¬ matchesTxHash txHash then .error (txHashTypeError txHash)
  else if cursor = "" then
    .error (.typeError ("Missing Alethio pagination cursor " ++ cursor))
  else
    match pages with
    | [] =>
      .error (.verror (.jsError "no contract messages in Alethio response")
        (contractMessagesFailMsg txHash))
    | page :: rest =>
      let allMessages := messages ++ page.records.map convertMessage
      if page.hasNext then
        match extractNextCursor page with
        | .error e => .error (.verror e (contractMessagesFailMsg txHash))
        | .ok next =>
          match getContractMessagesRecursive txHash next allMessages rest with
          | .error e => .error (.verror e (contractMessagesFailMsg txHash))
          | .ok v => .ok v
      else .ok allMessages

/-- Entry point getContractMessages of the AlethioClient module: the
hash is validated before any network interaction, the first page's
records are collected, remaining pages are fetched through the
recursive cursor-follow when the page metadata signals more, and the
final list is sorted by message id ascending.  Errors of the try
block are wrapped with context. -/
def getContractMessages (txHash : String) (pages : List Page) :
    Except JsError (List Message) :=
  if ¬ matchesTxHash txHash then .error (txHashTypeError txHash)
  else
    let res : Except JsError (List Message) :=
      match pages with
      | [] =>
        .error (.jsError "no contract messages in Alethio response")
      | page :: rest =>
        let messages := page.records.map convertMessage
        if page.hasNext then
          match extractNextCursor page with
          | .error e => .error e
          | .ok cursor => getContractMessagesRecursive txHash cursor messages rest
        else .ok messages
    match res with
    | .error e => .error (.verror e (contractMessagesFailMsg txHash))
    | .ok msgs => .ok (sortById msgs)

/-- Transaction attributes and relationships of the Alethio
transaction response used by getTransactionDetails, numeric strings
already read as numbers. -/
structure TxAttributes where
  txNonce : Nat
  txIndex : Nat
  value : Nat
  txGasPrice : Nat
  blockCreationTime : Nat
  msgError : Bool
  msgErrorString : Option String
  msgType : String
  msgPayload : String
  txGasUsed : Nat
  msgGasLimit : Nat
  fromId : String
  toId : String
deriving DecidableEq, Repr

/-- Transaction details record built by getTransactionDetails; the
timestamp keeps the source's millisecond value. -/
structure TransactionDetails where
  hash : String
  nonce : Nat
  index : Nat
  value : Nat
  gasPrice : Nat
  timestamp : Nat
  status : Bool
  error : Option String
deriving DecidableEq, Repr

/-- Entry point getTransactionDetails of the AlethioClient module:
the hash is validated before any network interaction; a response
without attributes or relationships raises inside the try block and
is wrapped; otherwise the details and the first message are built
from the attributes. -/
def getTransactionDetails (txHash : String) (response : Option TxAttributes) :
    Except JsError (TransactionDetails × Message) :=
  if ¬ matchesTxHash txHash then .error (txHashTypeError txHash)
  else
    match response with
    | none =>
      .error (.verror (.jsError "no transaction attributes in Alethio response")
        ("Failed to get transaction details for hash " ++ txHash ++
          " from Alethio"))
    | some a =>
      .ok
        ({ hash := txHash
           nonce := a.txNonce
           index := a.txIndex
           value := a.value
           gasPrice := a.txGasPrice
           timestamp := a.blockCreationTime * 1000
           status := !a.msgError
           error := a.msgErrorString },
         { id := 0
           type := convertType a.msgType
           «from» := a.fromId
           «to» := a.toId
           value := a.value
           payload := a.msgPayload
           gasUsed := a.txGasUsed
           gasLimit := a.msgGasLimit
           callDepth := 0
           status := !a.msgError
           error := a.msgErrorString })

end AlethioClient

theorem hexDigitVal?_hexDigitChar : ∀ d, d < 16 → hexDigitVal? (hexDigitChar d) = some d := by
  decide

theorem isHexDigit_hexDigitChar (d : Nat) (h : d < 16) :
    isHexDigit (hexDigitChar d) = true := by
  simp [isHexDigit, hexDigitVal?_hexDigitChar d h]

theorem length_wordHex : ∀ k n, (wordHex k n).length = k := by
  intro k
  induction k with
  | zero => intro n; simp [wordHex]
  | succ k ih => intro n; simp [wordHex, ih]

theorem mem_wordHex_isHex : ∀ k n ch, ch ∈ wordHex k n → isHexDigit ch = true := by
  intro k
  induction k with
  | zero => intro n ch h; simp [wordHex] at h
  | succ k ih =>
    intro n ch h
    rw [wordHex] at h
    rcases List.mem_append.mp h with h1 | h1
    · exact ih (n / 16) ch h1
    · have : ch = hexDigitChar (n % 16) := by simpa using h1
      subst this
      exact isHexDigit_hexDigitChar (n % 16) (Nat.mod_lt n (by norm_num))

theorem foldl_hex_wordHex :
    ∀ k n a, n < 16 ^ k →
      (wordHex k n).foldl (fun acc ch => acc * 16 + (hexDigitVal? ch).getD 0) a
        = a * 16 ^ k + n := by
  intro k
  induction k with
  | zero =>
    intro n a h
    have hn : n = 0 := by simpa using h
    subst hn
    simp [wordHex]
  | succ k ih =>
    intro n a h
    have hdiv : n / 16 < 16 ^ k := by
      rw [Nat.div_lt_iff_lt_mul (by norm_num : (0:Nat) < 16)]
      rw [← pow_succ]
      exact h
    rw [wordHex, List.foldl_append]
    rw [ih (n / 16) a hdiv]
    simp only [List.foldl_cons, List.foldl_nil]
    rw [hexDigitVal?_hexDigitChar (n % 16) (Nat.mod_lt n (by norm_num))]
    simp only [Option.getD_some]
    rw [pow_succ]
    conv_rhs => rw [← Nat.div_add_mod n 16]
    ring

theorem jsParseIntHex_wordHex (k n : Nat) (hk : 0 < k) (h : n < 16 ^ k) :
    jsParseIntHex (wordHex k n) = some n := by
  unfold jsParseIntHex
  have hall : ∀ x ∈ wordHex k n, isHexDigit x := fun x hx => mem_wordHex_isHex k n x hx
  rw [List.takeWhile_eq_self_iff.mpr hall]
  cases hw : wordHex k n with
  | nil =>
    exfalso
    have hlen := length_wordHex k n
    rw [hw] at hlen
    simp at hlen
    omega
  | cons a as =>
    show some (List.foldl (fun acc ch => acc * 16 + (hexDigitVal? ch).getD 0) 0
      (a :: as)) = some n
    rw [← hw, foldl_hex_wordHex k n 0 h]
    simp

theorem length_hexOfBytes : ∀ bs, (hexOfBytes bs).length = 2 * bs.length := by
  intro bs
  induction bs with
  | nil => simp [hexOfBytes]
  | cons b rest ih => simp [hexOfBytes, ih]; ring

theorem hexPairsToBytes_hexOfBytes :
    ∀ bs, (∀ b ∈ bs, b < 256) → hexPairsToBytes (hexOfBytes bs) = some bs := by
  intro bs
  induction bs with
  | nil => intro h; simp [hexOfBytes, hexPairsToBytes]
  | cons b rest ih =>
    intro h
    have hb : b < 256 := h b (by simp)
    rw [hexOfBytes]
    simp only [hexPairsToBytes]
    rw [hexDigitVal?_hexDigitChar (b / 16) (by omega),
      hexDigitVal?_hexDigitChar (b % 16) (by omega)]
    rw [ih (fun x hx => h x (List.mem_cons_of_mem _ hx))]
    have hbb : b / 16 * 16 + b % 16 = b := by omega
    simp [hbb]


theorem utf8EncodeChar_lt (c : Nat) (h : c < 0x110000) :
    ∀ b ∈ utf8EncodeChar c, b < 256 := by
  intro b hb
  unfold utf8EncodeChar at hb
  by_cases h1 : c < 0x80
  · rw [if_pos h1] at hb
    simp at hb
    omega
  · rw [if_neg h1] at hb
    by_cases h2 : c < 0x800
    · rw [if_pos h2] at hb
      simp at hb
      rcases hb with rfl | rfl <;> omega
    · rw [if_neg h2] at hb
      by_cases h3 : c < 0x10000
      · rw [if_pos h3] at hb
        simp at hb
        rcases hb with rfl | rfl | rfl <;> omega
      · rw [if_neg h3] at hb
        simp at hb
        rcases hb with rfl | rfl | rfl | rfl <;> omega

theorem utf8Encode_lt (s : List Nat) (h : ∀ c ∈ s, c < 0x110000) :
    ∀ b ∈ utf8Encode s, b < 256 := by
  induction s with
  | nil => intro b hb; simp [utf8Encode] at hb
  | cons c rest ih =>
    intro b hb
    rw [utf8Encode] at hb
    rcases List.mem_append.mp hb with hm | hm
    · exact utf8EncodeChar_lt c (h c (by simp)) b hm
    · exact ih (fun x hx => h x (List.mem_cons_of_mem _ hx)) b hm

theorem decodeOne_length (b1 : Nat) (tail : List Nat) (cp : Nat)
    (rest : List Nat) (h : decodeOne b1 tail = some (cp, rest)) :
    rest.length ≤ tail.length := by
  rcases tail with _ | ⟨b2, t2⟩
  · simp only [decodeOne] at h
    split_ifs at h
    simp_all
  · rcases t2 with _ | ⟨b3, t3⟩
    · simp only [decodeOne] at h
      split_ifs at h <;> simp_all
    · rcases t3 with _ | ⟨b4, t4⟩
      · simp only [decodeOne] at h
        split_ifs at h <;> simp_all
      · simp only [decodeOne] at h
        split_ifs at h <;> simp_all
        all_goals omega

theorem utf8DecodeAux_fuel :
    ∀ f g bs, bs.length ≤ f → bs.length ≤ g →
      utf8DecodeAux f bs = utf8DecodeAux g bs := by
  intro f
  induction f with
  | zero =>
    intro g bs hf hg
    have : bs = [] := by
      cases bs with
      | nil => rfl
      | cons a as => simp at hf
    subst this
    cases g <;> simp [utf8DecodeAux]
  | succ f ih =>
    intro g bs hf hg
    cases bs with
    | nil => cases g <;> simp [utf8DecodeAux]
    | cons b1 tail =>
      cases g with
      | zero => simp at hg
      | succ g =>
        rw [utf8DecodeAux, utf8DecodeAux]
        cases hd : decodeOne b1 tail with
        | none => rfl
        | some pr =>
          obtain ⟨cp, rest⟩ := pr
          have hlen := decodeOne_length b1 tail cp rest hd
          simp only []
          rw [ih g rest (by simp at hf; omega) (by simp at hg; omega)]

theorem decodeOne_enc1 (c : Nat) (bs : List Nat) (h : c < 0x80) :
    decodeOne c bs = some (c, bs) := by
  simp [decodeOne, h]

theorem decodeOne_enc2 (c : Nat) (bs : List Nat) (h1 : 0x80 ≤ c)
    (h2 : c < 0x800) :
    decodeOne (0xc0 + c / 64) ((0x80 + c % 64) :: bs) = some (c, bs) := by
  have f1 : ¬ (0xc0 + c / 64 < 0x80) := by omega
  have f2 : ¬ (0xc0 + c / 64 < 0xc0) := by omega
  have f3 : 0xc0 + c / 64 < 0xe0 := by omega
  have f4 : 0x80 ≤ 0x80 + c % 64 := by omega
  have f5 : 0x80 + c % 64 < 0xc0 := by omega
  have hcp : (0xc0 + c / 64 - 0xc0) * 64 + (0x80 + c % 64 - 0x80) = c := by omega
  simp only [decodeOne, f1, f2, f3, f4, f5, hcp, and_self, if_true, if_false,
    ite_true, ite_false]
  simp [h1]

theorem decodeOne_enc3 (c : Nat) (bs : List Nat) (h1 : 0x800 ≤ c)
    (h2 : c < 0x10000) (h3 : ¬ (0xd800 ≤ c ∧ c ≤ 0xdfff)) :
    decodeOne (0xe0 + c / 4096)
      ((0x80 + c / 64 % 64) :: (0x80 + c % 64) :: bs) = some (c, bs) := by
  have f1 : ¬ (0xe0 + c / 4096 < 0x80) := by omega
  have f2 : ¬ (0xe0 + c / 4096 < 0xc0) := by omega
  have f3 : ¬ (0xe0 + c / 4096 < 0xe0) := by omega
  have f4 : 0xe0 + c / 4096 < 0xf0 := by omega
  have f5 : 0x80 ≤ 0x80 + c / 64 % 64 := by omega
  have f6 : 0x80 + c / 64 % 64 < 0xc0 := by omega
  have f7 : 0x80 ≤ 0x80 + c % 64 := by omega
  have f8 : 0x80 + c % 64 < 0xc0 := by omega
  have hcp : (0xe0 + c / 4096 - 0xe0) * 4096 + (0x80 + c / 64 % 64 - 0x80) * 64
      + (0x80 + c % 64 - 0x80) = c := by omega
  simp only [decodeOne, f1, f2, f3, f4, f5, f6, f7, f8, hcp, and_self,
    if_true, if_false, ite_true, ite_false]
  have g1 : ¬ (c < 0x800) := by omega
  simp [g1, h3]

theorem decodeOne_enc4 (c : Nat) (bs : List Nat) (h1 : 0x10000 ≤ c)
    (h2 : c < 0x110000) :
    decodeOne (0xf0 + c / 262144)
      ((0x80 + c / 4096 % 64) :: (0x80 + c / 64 % 64) :: (0x80 + c % 64) :: bs)
      = some (c, bs) := by
  have f1 : ¬ (0xf0 + c / 262144 < 0x80) := by omega
  have f2 : ¬ (0xf0 + c / 262144 < 0xc0) := by omega
  have f3 : ¬ (0xf0 + c / 262144 < 0xe0) := by omega
  have f4 : ¬ (0xf0 + c / 262144 < 0xf0) := by omega
  have f5 : 0xf0 + c / 262144 < 0xf8 := by omega
  have f6 : 0x80 ≤ 0x80 + c / 4096 % 64 := by omega
  have f7 : 0x80 + c / 4096 % 64 < 0xc0 := by omega
  have f8 : 0x80 ≤ 0x80 + c / 64 % 64 := by omega
  have f9 : 0x80 + c / 64 % 64 < 0xc0 := by omega
  have f10 : 0x80 ≤ 0x80 + c % 64 := by omega
  have f11 : 0x80 + c % 64 < 0xc0 := by omega
  have hcp : (0xf0 + c / 262144 - 0xf0) * 262144
      + (0x80 + c / 4096 % 64 - 0x80) * 4096
      + (0x80 + c / 64 % 64 - 0x80) * 64
      + (0x80 + c % 64 - 0x80) = c := by omega
  simp only [decodeOne, f1, f2, f3, f4, f5, f6, f7, f8, f9, f10, f11, hcp,
    and_self, if_true, if_false, ite_true, ite_false]
  have g1 : ¬ (c < 0x10000) := by omega
  have g2 : ¬ (0x10ffff < c) := by omega
  simp [g1, g2]

theorem utf8Decode_encodeChar (c : Nat) (bs : List Nat)
    (h1 : c < 0x110000) (h2 : ¬ (0xd800 ≤ c ∧ c ≤ 0xdfff)) :
    utf8Decode (utf8EncodeChar c ++ bs)
      = (utf8Decode bs).map (fun cs => c :: cs) := by
  by_cases hA : c < 0x80
  · rw [utf8EncodeChar, if_pos hA]
    simp only [List.cons_append, List.nil_append]
    rw [utf8Decode]
    simp only [List.length_cons]
    rw [utf8DecodeAux, decodeOne_enc1 c bs hA]
    rfl
  · by_cases hB : c < 0x800
    · rw [utf8EncodeChar, if_neg hA, if_pos hB]
      simp only [List.cons_append, List.nil_append]
      rw [utf8Decode]
      simp only [List.length_cons]
      rw [utf8DecodeAux, decodeOne_enc2 c bs (by omega) hB]
      simp only []
      rw [utf8DecodeAux_fuel (bs.length + 1) bs.length bs (by omega) (by omega)]
      rfl
    · by_cases hC : c < 0x10000
      · rw [utf8EncodeChar, if_neg hA, if_neg hB, if_pos hC]
        simp only [List.cons_append, List.nil_append]
        rw [utf8Decode]
        simp only [List.length_cons]
        rw [utf8DecodeAux, decodeOne_enc3 c bs (by omega) hC h2]
        simp only []
        rw [utf8DecodeAux_fuel (bs.length + 1 + 1) bs.length bs (by omega)
          (by omega)]
        rfl
      · rw [utf8EncodeChar, if_neg hA, if_neg hB, if_neg hC]
        simp only [List.cons_append, List.nil_append]
        rw [utf8Decode]
        simp only [List.length_cons]
        rw [utf8DecodeAux, decodeOne_enc4 c bs (by omega) h1]
        simp only []
        rw [utf8DecodeAux_fuel (bs.length + 1 + 1 + 1) bs.length bs (by omega)
          (by omega)]
        rfl

theorem utf8Decode_utf8Encode (s : List Nat)
    (hv : ∀ c ∈ s, c < 0x110000 ∧ ¬ (0xd800 ≤ c ∧ c ≤ 0xdfff)) :
    utf8Decode (utf8Encode s) = some s := by
  induction s with
  | nil => simp [utf8Encode, utf8Decode, utf8DecodeAux]
  | cons c rest ih =>
    have h := hv c (by simp)
    rw [utf8Encode, utf8Decode_encodeChar c _ h.1 h.2]
    rw [ih (fun x hx => hv x (List.mem_cons_of_mem _ hx))]
    rfl

/-- Selector of the standard Error(string) revert payload, as the
first 8 hexadecimal characters of the data. -/
def selectorChars : List Char :=
  ['0', '8', 'c', '3', '7', '9', 'a', '0']

/-- Standard Error(string) ABI revert layout: 4-byte selector, 32-byte
offset word (0x20), 32-byte length word, then the raw bytes padded
with zeros to a 32-byte boundary, rendered as the hexadecimal
character string that reaches the decoder once the 0x prefix has been
stripped. -/
def abiErrorEncodeBytes (bytes : List Nat) : List Char :=
  selectorChars ++ wordHex 64 0x20 ++ wordHex 64 bytes.length ++
    hexOfBytes bytes ++ List.replicate ((32 - bytes.length % 32) % 32 * 2) '0'

/-- ABI encoding of a string, given by its code points, in the
standard Error(string) revert layout. -/
def abiEncodeErrorString (s : List Nat) : List Char :=
  abiErrorEncodeBytes (utf8Encode s)

theorem jsSlice_mid (a b c : List Char) (s e : Nat)
    (ha : a.length = s) (he : s + b.length = e) :
    jsSlice (a ++ (b ++ c)) s e = b := by
  subst ha
  subst he
  unfold jsSlice
  rw [← List.append_assoc]
  rw [List.take_append_eq_append_take]
  rw [List.take_of_length_le (by simp)]
  simp only [List.length_append, Nat.sub_self, List.take_zero, List.append_nil]
  rw [List.drop_left]

theorem jsSlice_word2 (a b w2 rest : List Char) (ha : a.length = 8)
    (hb : b.length = 64) (hw : w2.length = 64) :
    jsSlice (a ++ (b ++ (w2 ++ rest))) (8 + 64) (8 + 128) = w2 := by
  have h := jsSlice_mid (a ++ b) w2 rest (8 + 64) (8 + 128)
    (by simp [ha, hb]) (by rw [hw])
  rw [List.append_assoc] at h
  exact h

theorem jsSlice_word3 (a b w2 dat pad : List Char) (n : Nat)
    (ha : a.length = 8) (hb : b.length = 64) (hw : w2.length = 64)
    (hd : dat.length = n) :
    jsSlice (a ++ (b ++ (w2 ++ (dat ++ pad)))) (8 + 128) (8 + 128 + n) = dat := by
  have h := jsSlice_mid (a ++ b ++ w2) dat pad (8 + 128) (8 + 128 + n)
    (by simp [ha, hb, hw]) (by rw [hd])
  simp only [List.append_assoc] at h
  exact h

/-- Evaluation of parseReasonCode once the length word parses. -/
theorem parseReasonCode_eval (md : List Char) (n : Nat)
    (h : jsParseIntHex (jsSlice md (8 + 64) (8 + 128)) = some n) :
    GethClient.parseReasonCode md
      = toUtf8String (jsSlice md (8 + 128) (8 + 128 + n * 2)) := by
  simp only [GethClient.parseReasonCode]
  rw [h]

/-- Round trip of the Error(string) layout through parseReasonCode:
decoding the encoding of any string of Unicode scalar values recovers
the string exactly. -/
theorem parseReasonCode_abiEncode (s : List Nat)
    (hv : ∀ c ∈ s, c < 0x110000 ∧ ¬ (0xd800 ≤ c ∧ c ≤ 0xdfff))
    (hlen : (utf8Encode s).length < 2 ^ 53) :
    GethClient.parseReasonCode (abiEncodeErrorString s) = some s := by
  have hb256 : ∀ b ∈ utf8Encode s, b < 256 :=
    utf8Encode_lt s (fun c hc => (hv c hc).1)
  have hL : (utf8Encode s).length < 16 ^ 64 :=
    lt_of_lt_of_le hlen (by norm_num)
  have h1 : jsParseIntHex
      (jsSlice (abiEncodeErrorString s) (8 + 64) (8 + 128))
      = some (utf8Encode s).length := by
    unfold abiEncodeErrorString abiErrorEncodeBytes
    simp only [List.append_assoc]
    rw [jsSlice_word2 selectorChars (wordHex 64 0x20)
      (wordHex 64 (utf8Encode s).length) _ (by simp [selectorChars])
      (length_wordHex 64 0x20) (length_wordHex 64 (utf8Encode s).length)]
    exact jsParseIntHex_wordHex 64 (utf8Encode s).length (by norm_num) hL
  rw [parseReasonCode_eval _ _ h1]
  have h2 : jsSlice (abiEncodeErrorString s) (8 + 128)
      (8 + 128 + (utf8Encode s).length * 2) = hexOfBytes (utf8Encode s) := by
    unfold abiEncodeErrorString abiErrorEncodeBytes
    simp only [List.append_assoc]
    rw [jsSlice_word3 selectorChars (wordHex 64 0x20)
      (wordHex 64 (utf8Encode s).length) (hexOfBytes (utf8Encode s)) _
      ((utf8Encode s).length * 2) (by simp [selectorChars])
      (length_wordHex 64 0x20) (length_wordHex 64 (utf8Encode s).length)
      (by rw [length_hexOfBytes]; ring)]
  rw [h2]
  unfold toUtf8String
  rw [hexPairsToBytes_hexOfBytes _ hb256]
  exact utf8Decode_utf8Encode s hv

namespace GethClient

/-- Modelled from the spec: the status of a message is true unless an
error is set.  The Trace record built by addTraces carries only the
error field; the status flag itself is attached by the transaction
module, which is not under src. -/
def Trace.status (tr : Trace) : Bool :=
  tr.error.isNone

/-- First emitted trace of a flattened tree is the trace of the root,
with id 0, depth 0 and no parent. -/
theorem flattenTree_head (c : CallResponse) :
    (flattenTree c)[0]? = some (newTraceOf c 0 0 none) := by
  cases c with
  | mk ty f t inp out v g gu tm err calls =>
    cases calls with
    | none => simp [flattenTree, addTraces]
    | some cs =>
      unfold flattenTree
      simp only [addTraces]
      rw [addTracesChildren_append cs
        ([] ++ [newTraceOf (CallResponse.mk ty f t inp out v g gu tm err
          (some cs)) 0 0 none])]
      simp

/-- Error fields of the flattened traces match the pre-order error
fields of the tree positionally. -/
theorem flattenTree_map_error (c : CallResponse) :
    (flattenTree c).map Trace.error = (preorder c).map CallResponse.error := by
  have h := congrArg
    (List.map (fun x : Option String × Option String ×
      Option (List Char) × Option String => x.2.2.2))
    (addTraces_map_node c 0 0 none)
  simpa [List.map_map, Function.comp, nodeView, nodeProj, flattenTree] using h

end GethClient

/-- Example tree of shape Root CALL A, A DELEGATECALL B, B
DELEGATECALL C, used to test the delegatecall chaining rule. -/
def c1Grandchild : GethClient.CallResponse :=
  .mk .DELEGATECALL (some "0xbbb") (some "0xccc") none none none none none
    none none none

/-- Middle node of the delegatecall chain example. -/
def c1Child : GethClient.CallResponse :=
  .mk .DELEGATECALL (some "0xaaa") (some "0xbbb") none none none none none
    none none (some [c1Grandchild])

/-- Root of the delegatecall chain example. -/
def c1Tree : GethClient.CallResponse :=
  .mk .CALL (some "0xroot") (some "0xaaa") none none none none none none
    none (some [c1Child])

/-- Claim C1 counterexample: on the chain Root CALL A, A DELEGATECALL
B, B DELEGATECALL C, the flattener gives the Message for C a
delegatedFrom of B (the parent delegatecall's to), not A as the claim
states: delegatedFrom is not propagated transitively. -/
theorem claim_C1_counterexample :
    (GethClient.flattenTree c1Tree).map GethClient.Trace.delegatedFrom
      = [some "0xroot", some "0xaaa", some "0xbbb"] ∧
    ((GethClient.flattenTree c1Tree).map GethClient.Trace.delegatedFrom)[2]?
      ≠ some (some "0xaaa") := by
  constructor
  · decide
  · decide

/-- Claim C1 amended: for the chain Root CALL A, A DELEGATECALL B, B
DELEGATECALL C, the Message for B has delegatedFrom A, and the
Message for C has delegatedFrom B, the to of its delegatecall parent:
the attribution rule only consults the immediate parent and is not
propagated transitively to the original calling identity. -/
theorem claim_C1_amended (c0 c1 c2 : GethClient.CallResponse)
    (h0 : c0.type = .CALL) (hc0 : c0.calls = some [c1])
    (h1 : c1.type = .DELEGATECALL) (hc1 : c1.calls = some [c2])
    (h2 : c2.type = .DELEGATECALL) (hc2 : c2.calls = none) :
    (GethClient.flattenTree c0).map GethClient.Trace.delegatedFrom
      = [c0.from?, c1.from?, c1.«to»] := by
  obtain ⟨ty0, f0, t0, i0, o0, v0, g0, gu0, tm0, e0, cal0⟩ := c0
  simp only [GethClient.CallResponse.type, GethClient.CallResponse.calls] at h0 hc0
  subst h0
  subst hc0
  obtain ⟨ty1, f1, t1, i1, o1, v1, g1, gu1, tm1, e1, cal1⟩ := c1
  simp only [GethClient.CallResponse.type, GethClient.CallResponse.calls] at h1 hc1
  subst h1
  subst hc1
  obtain ⟨ty2, f2, t2, i2, o2, v2, g2, gu2, tm2, e2, cal2⟩ := c2
  simp only [GethClient.CallResponse.type, GethClient.CallResponse.calls] at h2 hc2
  subst h2
  subst hc2
  simp [GethClient.flattenTree, GethClient.addTraces,
    GethClient.addTracesChildren, GethClient.newTraceOf,
    GethClient.convertType, GethClient.CallResponse.type,
    GethClient.CallResponse.from?, GethClient.CallResponse.«to»]

/-- Witness for amended claim C1 at the concrete example chain. -/
theorem claim_C1_amended_witness :
    (GethClient.flattenTree c1Tree).map GethClient.Trace.delegatedFrom
      = [some "0xroot", some "0xaaa", some "0xbbb"] :=
  claim_C1_amended c1Tree c1Child c1Grandchild rfl rfl rfl rfl rfl rfl

/-- Claim C2: the flattener run from id 0 on an empty trace list
emits exactly one Message per tree node, positionally matching the
pre-order listing of the nodes, with ids exactly 0..count-1 in order,
and returns the node count as the threaded counter value. -/
theorem claim_C2_preorder_ids (root : GethClient.CallResponse) :
    (GethClient.flattenTree root).length = (GethClient.preorder root).length ∧
    (GethClient.flattenTree root).map GethClient.Trace.id
      = List.range (GethClient.preorder root).length ∧
    (GethClient.flattenTree root).map GethClient.nodeView
      = (GethClient.preorder root).map GethClient.nodeProj ∧
    (GethClient.addTraces root [] 0 0 none).2
      = (GethClient.preorder root).length := by
  refine ⟨?_, ?_, ?_, ?_⟩
  · simpa [GethClient.flattenTree] using
      GethClient.addTraces_length root [] 0 0 none
  · rw [List.range_eq_range']
    simpa [GethClient.flattenTree] using GethClient.addTraces_map_id root 0 0 none
  · simpa [GethClient.flattenTree] using
      GethClient.addTraces_map_node root 0 0 none
  · simpa using GethClient.addTraces_snd root [] 0 0 none

/-- Claim C8: in every flattened tree, a trace with no parent has
delegatedFrom equal to its own from, and a trace with a parent has
delegatedFrom equal to the parent's to when the parent Message's type
is DelegateCall, and its own from otherwise. -/
theorem claim_C8_delegation_rule (root : GethClient.CallResponse) :
    ∀ tr ∈ GethClient.flattenTree root,
      (tr.parentId = none → tr.delegatedFrom = tr.«from») ∧
      (∀ pid, tr.parentId = some pid → ∃ pt,
        (GethClient.flattenTree root)[pid]? = some pt ∧
        tr.delegatedFrom
          = (if pt.type = MessageType.DelegateCall then pt.«to»
             else tr.«from»)) := by
  have h := GethClient.addTraces_delegationOk root [] 0 0 none rfl
    (by intro tr htr; simp at htr)
    (by intro q hq; cases hq)
  exact h

/-- Leaf used by the claim C8 witness: a plain CALL made from inside
a delegatecall context. -/
def c8Leaf : GethClient.CallResponse :=
  .mk .CALL (some "0xaaa") (some "0xddd") none none none none none none
    none none

/-- Root used by the claim C8 witness: a delegatecall with one child
call. -/
def c8Parent : GethClient.CallResponse :=
  .mk .DELEGATECALL (some "0xaaa") (some "0xbbb") none none none none none
    none none (some [c8Leaf])

/-- Witness for claim C8: the child of the delegatecall example gets
delegatedFrom from the rule applied to its parent trace. -/
theorem claim_C8_witness :
    ∃ pt, (GethClient.flattenTree c8Parent)[0]? = some pt ∧
      (GethClient.newTraceOf c8Leaf 1 1
        (some (GethClient.newTraceOf c8Parent 0 0 none))).delegatedFrom
        = (if pt.type = MessageType.DelegateCall then pt.«to»
           else (GethClient.newTraceOf c8Leaf 1 1
             (some (GethClient.newTraceOf c8Parent 0 0 none))).«from») := by
  have hmem : GethClient.newTraceOf c8Leaf 1 1
      (some (GethClient.newTraceOf c8Parent 0 0 none))
      ∈ GethClient.flattenTree c8Parent := by decide
  exact (claim_C8_delegation_rule c8Parent _ hmem).2 0 (by decide)

/-- Claim C10: a CallRecord with no value field yields a Message with
value exactly 0, while missing gas fields yield absent gasLimit and
gasUsed, not 0. -/
theorem claim_C10_value_gas_defaults (c : GethClient.CallResponse)
    (hv : c.value = none) (hg : c.gas = none) (hgu : c.gasUsed = none) :
    ∃ tr, (GethClient.flattenTree c)[0]? = some tr ∧
      tr.value = 0 ∧ tr.gasLimit = none ∧ tr.gasUsed = none := by
  refine ⟨GethClient.newTraceOf c 0 0 none, GethClient.flattenTree_head c,
    ?_, ?_, ?_⟩
  · simp [hv, GethClient.convertBigNumber]
  · simp [hg, GethClient.convertBigNumber]
  · simp [hgu, GethClient.convertBigNumber]

/-- Single node with no value and no gas fields, for the claim C10
witness. -/
def c10Tree : GethClient.CallResponse :=
  .mk .CALL (some "0xa") (some "0xb") none none none none none none none
    none

/-- Witness for claim C10 at a concrete node. -/
theorem claim_C10_witness :
    ∃ tr, (GethClient.flattenTree c10Tree)[0]? = some tr ∧
      tr.value = 0 ∧ tr.gasLimit = none ∧ tr.gasUsed = none :=
  claim_C10_value_gas_defaults c10Tree rfl rfl rfl

/-- Claim C4 evaluation: the indexer type conversion maps the create
tags CreateContractMsg and CreateTx to MessageType.Value, not
MessageType.Create as specified; the value and selfdestruct tags and
the unrecognized-tag default behave as specified. -/
theorem claim_C4_convertType_eval :
    AlethioClient.convertType "CreateContractMsg" = MessageType.Value ∧
    AlethioClient.convertType "CreateTx" = MessageType.Value ∧
    MessageType.Value ≠ MessageType.Create ∧
    AlethioClient.convertType "ValueContractMsg" = MessageType.Value ∧
    AlethioClient.convertType "ValueTx" = MessageType.Value ∧
    AlethioClient.convertType "SelfdestructContractMsg"
      = MessageType.Selfdestruct ∧
    AlethioClient.convertType "SelfdestructTx" = MessageType.Selfdestruct ∧
    AlethioClient.convertType "CallContractMsg" = MessageType.Call ∧
    AlethioClient.convertType "SomethingElse" = MessageType.Call := by
  decide

/-- Claim C6: when exactly one node of the tree carries an error, the
flattener still emits one Message per node, the error strings of the
emitted traces match the pre-order error fields positionally (so the
failed node's Message carries its error string and every other
Message carries none), and exactly one emitted trace has status
false. -/
theorem claim_C6_partial_failure (t : GethClient.CallResponse)
    (h : ((GethClient.preorder t).filter
      (fun c => c.error.isSome)).length = 1) :
    (GethClient.flattenTree t).length = (GethClient.preorder t).length ∧
    (GethClient.flattenTree t).map GethClient.Trace.error
      = (GethClient.preorder t).map GethClient.CallResponse.error ∧
    ((GethClient.flattenTree t).filter
      (fun tr => !(GethClient.Trace.status tr))).length = 1 := by
  have hme := GethClient.flattenTree_map_error t
  refine ⟨?_, hme, ?_⟩
  · simpa [GethClient.flattenTree] using
      GethClient.addTraces_length t [] 0 0 none
  · have hfun : (fun tr : GethClient.Trace => !(GethClient.Trace.status tr))
        = (fun tr : GethClient.Trace => tr.error.isSome) := by
      funext tr
      cases htr : tr.error <;> simp [GethClient.Trace.status, htr]
    rw [hfun]
    have step1 : ((GethClient.flattenTree t).filter
        (fun tr => tr.error.isSome)).length
        = (((GethClient.flattenTree t).map GethClient.Trace.error).filter
            Option.isSome).length := by
      rw [List.filter_map]
      simp only [List.length_map]
      rw [show (Option.isSome ∘ GethClient.Trace.error)
        = (fun tr : GethClient.Trace => tr.error.isSome) from rfl]
    rw [step1, hme, List.filter_map]
    simpa using h

/-- Tree with exactly one failing leaf, for the claim C6 witness. -/
def c6Tree : GethClient.CallResponse :=
  .mk .CALL (some "0xr") (some "0xa") none none none none none none none
    (some
      [.mk .CALL (some "0xa") (some "0xb") none none none none none none
        none none,
       .mk .CALL (some "0xa") (some "0xc") none none none none none none
        (some "out of gas") none,
       .mk .CALL (some "0xa") (some "0xd") none none none none none none
        none none])

/-- Witness for claim C6 at a tree with one failing leaf among three
children. -/
theorem claim_C6_witness :
    (GethClient.flattenTree c6Tree).length
      = (GethClient.preorder c6Tree).length ∧
    (GethClient.flattenTree c6Tree).map GethClient.Trace.error
      = (GethClient.preorder c6Tree).map GethClient.CallResponse.error ∧
    ((GethClient.flattenTree c6Tree).filter
      (fun tr => !(GethClient.Trace.status tr))).length = 1 :=
  claim_C6_partial_failure c6Tree (by decide)

/-- Claim C7: every entry point taking a transaction hash rejects a
hash that fails the 32-byte hexadecimal 0x-prefixed format check with
a TypeError, whatever the network would have answered: the result is
the TypeError for every possible response value, so the failure
happens before any network interaction. -/
theorem claim_C7_hash_validation (txHash : String)
    (h : ¬ matchesTxHash txHash) :
    (∀ response, AlethioClient.getTransactionDetails txHash response
      = .error (txHashTypeError txHash)) ∧
    (∀ pages, AlethioClient.getContractMessages txHash pages
      = .error (txHashTypeError txHash)) ∧
    (∀ response, GethClient.getTransactionTrace txHash response
      = .error (txHashTypeError txHash)) := by
  refine ⟨?_, ?_, ?_⟩ <;> intro x <;>
    simp [AlethioClient.getTransactionDetails,
      AlethioClient.getContractMessages, GethClient.getTransactionTrace, h]

/-- Witness for claim C7 at the malformed hash of the spec and
arbitrary fixed responses. -/
theorem claim_C7_witness :
    AlethioClient.getTransactionDetails "not-a-hash" none
      = .error (txHashTypeError "not-a-hash") ∧
    AlethioClient.getContractMessages "not-a-hash" []
      = .error (txHashTypeError "not-a-hash") ∧
    GethClient.getTransactionTrace "not-a-hash" .noUsableResult
      = .error (txHashTypeError "not-a-hash") := by
  have h := claim_C7_hash_validation "not-a-hash" (by decide)
  exact ⟨h.1 none, h.2.1 [], h.2.2 .noUsableResult⟩

/-- Claim C3: ABI-encoding any string (as Unicode scalar values) in
the standard Error(string) revert layout and decoding the result with
parseReasonCode recovers exactly the original string. -/
theorem claim_C3_revert_round_trip (s : List Nat)
    (hv : ∀ c ∈ s, c < 0x110000 ∧ ¬ (0xd800 ≤ c ∧ c ≤ 0xdfff))
    (hlen : (utf8Encode s).length < 2 ^ 53) :
    GethClient.parseReasonCode (abiEncodeErrorString s) = some s :=
  parseReasonCode_abiEncode s hv hlen

/-- Code points of the string used by the revert round-trip test of
the spec. -/
def insufficientBalanceCodes : List Nat :=
  "insufficient balance".toList.map Char.toNat

/-- Witness for claim C3 at the string of the spec. -/
theorem claim_C3_witness :
    GethClient.parseReasonCode (abiEncodeErrorString insufficientBalanceCodes)
      = some insufficientBalanceCodes :=
  claim_C3_revert_round_trip insufficientBalanceCodes (by decide) (by decide)

/-- Claim C5 counterexample: the empty payload is too short to hold a
length word or string data, yet parseReasonCode returns the empty
string instead of failing. -/
theorem claim_C5_counterexample :
    GethClient.parseReasonCode [] = some [] := by
  decide

/-- Claim C5 amended: on a payload too short to reach past the length
word region, parseReasonCode returns the empty string rather than
failing (the JS NaN or out-of-range slice yields no data); only bad
string bytes, such as the non-UTF-8 byte 0xff, make the decoder fail
when the UTF-8 conversion throws. -/
theorem claim_C5_amended :
    (∀ md : List Char, md.length ≤ 8 + 128 →
      GethClient.parseReasonCode md = some []) ∧
    GethClient.parseReasonCode (abiErrorEncodeBytes [0xff]) = none := by
  constructor
  · intro md hlen
    cases hp : jsParseIntHex (jsSlice md (8 + 64) (8 + 128)) with
    | none =>
      simp only [GethClient.parseReasonCode]
      rw [hp]
      rfl
    | some n =>
      rw [parseReasonCode_eval md n hp]
      have hnil : jsSlice md (8 + 128) (8 + 128 + n * 2) = [] := by
        unfold jsSlice
        apply List.drop_eq_nil_of_le
        have := List.length_take_le (8 + 128 + n * 2) md
        have h2 : (md.take (8 + 128 + n * 2)).length ≤ md.length :=
          List.length_take_le' _ _
        omega
      rw [hnil]
      rfl
  · decide

/-- Witness for amended claim C5 at a concrete short payload. -/
theorem claim_C5_witness :
    GethClient.parseReasonCode ['0', '8', 'c', '3'] = some [] :=
  claim_C5_amended.1 ['0', '8', 'c', '3'] (by decide)

namespace AlethioClient

/-- Concatenation of the converted records of a page sequence in
cursor order, with no re-ordering and nothing dropped. -/
def allPageMessages : List Page → List Message
  | [] => []
  | p :: rest => p.records.map convertMessage ++ allPageMessages rest

/-- Well-formed page chain: every page but the last signals a further
page and carries a nonempty extracted continuation cursor; the last
page signals no further page. -/
def chainOk : List Page → Bool
  | [] => false
  | [p] => !p.hasNext
  | p :: q :: rest =>
    p.hasNext &&
      (match extractNextCursor p with
       | .ok c => !(c == "")
       | .error _ => false) &&
      chainOk (q :: rest)

/-- One-step unfolding of the recursive cursor-follow on a nonempty
page list. -/
theorem getContractMessagesRecursive_cons (txHash cursor : String)
    (acc : List Message) (page : Page) (rest : List Page) :
    getContractMessagesRecursive txHash cursor acc (page :: rest)
      = if ¬ matchesTxHash txHash then .error (txHashTypeError txHash)
        else if cursor = "" then
          .error (.typeError ("Missing Alethio pagination cursor " ++ cursor))
        else if page.hasNext then
          match extractNextCursor page with
          | .error e => .error (.verror e (contractMessagesFailMsg txHash))
          | .ok next =>
            match getContractMessagesRecursive txHash next
                (acc ++ page.records.map convertMessage) rest with
            | .error e => .error (.verror e (contractMessagesFailMsg txHash))
            | .ok v => .ok v
        else .ok (acc ++ page.records.map convertMessage) := rfl

/-- The step taken on a page that signals a continuation with a good
cursor. -/
theorem getContractMessagesRecursive_step (txHash cursor : String)
    (acc : List Message) (page : Page) (rest : List Page) (cnext : String)
    (hm : matchesTxHash txHash = true) (hc : cursor ≠ "")
    (hnext : page.hasNext = true)
    (hext : extractNextCursor page = .ok cnext) :
    getContractMessagesRecursive txHash cursor acc (page :: rest)
      = match getContractMessagesRecursive txHash cnext
          (acc ++ page.records.map convertMessage) rest with
        | .error e => .error (.verror e (contractMessagesFailMsg txHash))
        | .ok v => .ok v := by
  rw [getContractMessagesRecursive_cons]
  rw [if_neg (by simp [hm]), if_neg hc, if_pos hnext, hext]

/-- The step taken on a final page that signals no continuation. -/
theorem getContractMessagesRecursive_last (txHash cursor : String)
    (acc : List Message) (page : Page) (rest : List Page)
    (hm : matchesTxHash txHash = true) (hc : cursor ≠ "")
    (hnext : page.hasNext = false) :
    getContractMessagesRecursive txHash cursor acc (page :: rest)
      = .ok (acc ++ page.records.map convertMessage) := by
  rw [getContractMessagesRecursive_cons]
  rw [if_neg (by simp [hm]), if_neg hc, if_neg (by simp [hnext])]

/-- An empty pagination cursor makes the recursive cursor-follow
throw a TypeError before any fetch. -/
theorem getContractMessagesRecursive_empty_cursor (txHash : String)
    (acc : List Message) (pages : List Page)
    (hm : matchesTxHash txHash = true) :
    getContractMessagesRecursive txHash "" acc pages
      = .error (.typeError ("Missing Alethio pagination cursor " ++ "")) := by
  cases pages with
  | nil => simp [getContractMessagesRecursive, hm]
  | cons page rest =>
    rw [getContractMessagesRecursive_cons]
    rw [if_neg (by simp [hm]), if_pos rfl]

/-- The recursive cursor-follow returns the accumulated messages
followed by every remaining page's records in cursor order. -/
theorem getContractMessagesRecursive_ok (txHash : String)
    (hm : matchesTxHash txHash = true) :
    ∀ pages cursor acc, cursor ≠ "" → chainOk pages = true →
      getContractMessagesRecursive txHash cursor acc pages
        = .ok (acc ++ allPageMessages pages) := by
  intro pages
  induction pages with
  | nil => intro cursor acc hc hok; simp [chainOk] at hok
  | cons page rest ih =>
    intro cursor acc hc hok
    cases rest with
    | nil =>
      have hnext : page.hasNext = false := by
        simpa [chainOk] using hok
      rw [getContractMessagesRecursive_last txHash cursor acc page [] hm hc hnext]
      simp [allPageMessages]
    | cons q rest2 =>
      rw [chainOk] at hok
      simp only [Bool.and_eq_true] at hok
      obtain ⟨⟨hnext, hcur⟩, hok2⟩ := hok
      cases hext : extractNextCursor page with
      | error e =>
        rw [hext] at hcur
        simp at hcur
      | ok cnext =>
        rw [hext] at hcur
        have hcne : cnext ≠ "" := by simpa using hcur
        rw [getContractMessagesRecursive_step txHash cursor acc page
          (q :: rest2) cnext hm hc hnext hext]
        rw [ih cnext (acc ++ page.records.map convertMessage) hcne hok2]
        simp [allPageMessages, List.append_assoc]

end AlethioClient

/-- Claim C9: for a well-formed chain of indexer pages, the final
sequence of getContractMessages is exactly the concatenation of all
pages' converted records sorted by message id ascending, a
permutation of the concatenation (nothing dropped) that is sorted;
and when a page signals a continuation while the extracted cursor is
empty, the whole operation fails with a TypeError wrapped with
context. -/
theorem claim_C9_pagination :
    (∀ txHash pages, matchesTxHash txHash = true →
      AlethioClient.chainOk pages = true →
      AlethioClient.getContractMessages txHash pages
        = .ok (AlethioClient.sortById (AlethioClient.allPageMessages pages)) ∧
      (AlethioClient.sortById (AlethioClient.allPageMessages pages)).Perm
        (AlethioClient.allPageMessages pages) ∧
      (AlethioClient.sortById (AlethioClient.allPageMessages pages)).Pairwise
        (fun a b => a.id ≤ b.id)) ∧
    (∀ txHash page rest, matchesTxHash txHash = true →
      page.hasNext = true →
      AlethioClient.extractNextCursor page = .ok "" →
      AlethioClient.getContractMessages txHash (page :: rest)
        = .error (.verror
            (.typeError ("Missing Alethio pagination cursor " ++ ""))
            (AlethioClient.contractMessagesFailMsg txHash))) := by
  constructor
  · intro txHash pages hm hok
    refine ⟨?_, List.mergeSort_perm _ _, ?_⟩
    · cases pages with
      | nil => simp [AlethioClient.chainOk] at hok
      | cons page rest =>
        cases rest with
        | nil =>
          have hnext : page.hasNext = false := by
            simpa [AlethioClient.chainOk] using hok
          simp [AlethioClient.getContractMessages, hm, hnext,
            AlethioClient.allPageMessages, AlethioClient.sortById]
        | cons q rest2 =>
          rw [AlethioClient.chainOk] at hok
          simp only [Bool.and_eq_true] at hok
          obtain ⟨⟨hnext, hcur⟩, hok2⟩ := hok
          cases hext : AlethioClient.extractNextCursor page with
          | error e =>
            rw [hext] at hcur
            simp at hcur
          | ok cnext =>
            rw [hext] at hcur
            have hcne : cnext ≠ "" := by simpa using hcur
            simp only [AlethioClient.getContractMessages, hm,
              not_true_eq_false, ite_false, hnext, ite_true, hext]
            rw [AlethioClient.getContractMessagesRecursive_ok txHash hm
              (q :: rest2) cnext (page.records.map AlethioClient.convertMessage)
              hcne hok2]
            simp [AlethioClient.allPageMessages]
    · apply List.Pairwise.imp ?_
        (List.sorted_mergeSort
          (by intro a b c h1 h2; simp at h1 h2 ⊢; omega)
          (by
            intro a b
            by_cases hab : a.id ≤ b.id
            · simp [hab]
            · simp [hab]
              omega)
          (AlethioClient.allPageMessages pages))
      intro a b hab
      simpa using hab
  · intro txHash page rest hm hnext hext
    simp only [AlethioClient.getContractMessages, hm, not_true_eq_false,
      ite_false, hnext, ite_true, hext]
    rw [AlethioClient.getContractMessagesRecursive_empty_cursor txHash
      (page.records.map AlethioClient.convertMessage) rest hm]

/-- Well-formed transaction hash used by witnesses. -/
def c9GoodHash : String :=
  "0x0000000000000000000000000000000000000000000000000000000000000000"

/-- First record of the pagination witness, deliberately out of id
order with the second. -/
def c9r1 : AlethioClient.ContractMessageRecord :=
  { cmsgIndex := 2, msgType := "CallContractMsg", fromId := "0xa",
    toId := "0xb", value := 0, msgPayload := "0x", msgGasUsed := 1,
    msgGasLimit := 2, msgCallDepth := 1, msgError := false,
    msgErrorString := none }

/-- Second record of the pagination witness. -/
def c9r2 : AlethioClient.ContractMessageRecord :=
  { c9r1 with cmsgIndex := 1, toId := "0xc" }

/-- Third record of the pagination witness, on the second page. -/
def c9r3 : AlethioClient.ContractMessageRecord :=
  { c9r1 with cmsgIndex := 3, toId := "0xd" }

/-- Fourth record of the pagination witness, on the third page. -/
def c9r4 : AlethioClient.ContractMessageRecord :=
  { c9r1 with cmsgIndex := 4, msgType := "ValueTx", value := 7 }

/-- Three pages of the pagination witness: the first two signal a
continuation with a cursor at the end of the links.next value, the
last signals no continuation. -/
def c9Pages : List AlethioClient.Page :=
  [{ records := [c9r1, c9r2], hasNext := true, nextLink := some "page=c2" },
   { records := [c9r3], hasNext := true, nextLink := some "page=c3" },
   { records := [c9r4], hasNext := false, nextLink := none }]

/-- Witness for claim C9 at three concrete pages. -/
theorem claim_C9_witness :
    AlethioClient.getContractMessages c9GoodHash c9Pages
      = .ok (AlethioClient.sortById (AlethioClient.allPageMessages c9Pages)) :=
  (claim_C9_pagination.1 c9GoodHash c9Pages (by decide) (by decide)).1
